import Mathlib

/-!
Verification of the guesstimate estimation core (three-point task
estimations): the Task / Estimation domain model, the SetEstimations
auto-fill and repair algorithm, the ordering/mapping aggregate
operations, and the statistics engine (project estimation and category
distribution).  Go float64 values are modelled as exact rationals;
Real.sqrt is used for the project standard deviation.  Go maps are
modelled as association lists; time.Now() is modelled as an explicit
clock argument.
-/

namespace Guesstimate

/-- TaskID is a unique identifier for a task (Go: type TaskID string). -/
abbrev TaskID := String

/-- Estimations contains the 3-point estimation values (Go struct
Estimations); float64 fields are modelled as exact rationals. -/
structure Estimations where
  optimistic : ℚ
  likely : ℚ
  pessimistic : ℚ
deriving Repr, DecidableEq

/-- Task represents a single task with 3-point estimation (Go struct Task). -/
structure Task where
  id : TaskID
  label : String
  description : String
  category : String
  estimations : Estimations
deriving Repr, DecidableEq

/-- Go math.Ceil restricted to rationals: the least integer ≥ x, as a rational. -/
def mathCeil (x : ℚ) : ℚ := (⌈x⌉ : ℚ)

/-- Go math.Floor restricted to rationals: the greatest integer ≤ x, as a rational. -/
def mathFloor (x : ℚ) : ℚ := (⌊x⌋ : ℚ)

/-- Go idiom used in SetEstimations: if o < 0 then o = 0 (clamp at zero). -/
def clampNonneg (x : ℚ) : ℚ := if x < 0 then 0 else x

/-- WeightedMean calculates the weighted mean (expected value) using the
3-point estimation formula E = (O + 4*L + P) / 6. -/
def Task.WeightedMean (t : Task) : ℚ :=
  (t.estimations.optimistic + 4 * t.estimations.likely + t.estimations.pessimistic) / 6

/-- StandardDeviation calculates the standard deviation using the 3-point
estimation formula SD = (P - O) / 6. -/
def Task.StandardDeviation (t : Task) : ℚ :=
  (t.estimations.pessimistic - t.estimations.optimistic) / 6

/-- First phase of Task.SetEstimations: auto-fill missing values (0) based on
which of the three inputs are provided (the if/else-if chain of the Go code). -/
def inferEstimations (optimistic likely pessimistic multiplier : ℚ) : ℚ × ℚ × ℚ :=
  let o := optimistic
  let l := likely
  let p := pessimistic
  let m := multiplier
  if 0 < o ∧ l = 0 ∧ p = 0 then
    -- Only optimistic is set
    let l2 := mathCeil (o * (1 + m))
    let p2 := mathCeil (l2 * (1 + m))
    (o, l2, p2)
  else if 0 < l ∧ o = 0 ∧ p = 0 then
    -- Only likely is set
    let o2 := clampNonneg (mathFloor (l * (1 - m)))
    let p2 := mathCeil (l * (1 + m))
    (o2, l, p2)
  else if 0 < p ∧ o = 0 ∧ l = 0 then
    -- Only pessimistic is set
    let l2 := mathFloor (p * (1 - m))
    let o2 := clampNonneg (mathFloor (l2 * (1 - m)))
    (o2, l2, p)
  else if 0 < o ∧ 0 < l ∧ p = 0 then
    -- Optimistic and likely set, pessimistic missing
    (o, l, mathCeil (l * (1 + m)))
  else if 0 < o ∧ 0 < p ∧ l = 0 then
    -- Optimistic and pessimistic set, likely missing
    let l2 := mathCeil ((o + p) / 2)
    let l3 := if l2 < o then o else l2
    let l4 := if p < l3 then p else l3
    (o, l4, p)
  else if 0 < l ∧ 0 < p ∧ o = 0 then
    -- Likely and pessimistic set, optimistic missing
    (clampNonneg (mathFloor (l * (1 - m))), l, p)
  else
    (o, l, p)

/-- Second phase of Task.SetEstimations: enforce constraints by propagating
forward; only update values that violate the ordering constraint. -/
def repairEstimations (o l p m : ℚ) : ℚ × ℚ × ℚ :=
  let l2 := if 0 < l ∧ l ≤ o then mathCeil (o * (1 + m)) else l
  let p2 := if 0 < p ∧ p ≤ l2 then mathCeil (l2 * (1 + m)) else p
  (o, l2, p2)

/-- The three values stored by Task.SetEstimations: inference pass followed by
the forward-propagating repair pass. -/
def setEstimationsValues (optimistic likely pessimistic multiplier : ℚ) : Estimations :=
  let r := inferEstimations optimistic likely pessimistic multiplier
  let r2 := repairEstimations r.1 r.2.1 r.2.2 multiplier
  ⟨r2.1, r2.2.1, r2.2.2⟩

/-- SetEstimations sets all three estimates and ensures coherency using the
given multiplier (Go method Task.SetEstimations). -/
def Task.SetEstimations (t : Task) (optimistic likely pessimistic multiplier : ℚ) : Task :=
  { t with estimations := setEstimationsValues optimistic likely pessimistic multiplier }

/-! Arithmetic helper lemmas about mathCeil / mathFloor / clampNonneg. -/

lemma le_mathCeil (x : ℚ) : x ≤ mathCeil x := Int.le_ceil x

lemma mathCeil_pos {x : ℚ} (h : 0 < x) : 0 < mathCeil x := by
  have h2 : (0 : ℤ) < ⌈x⌉ := Int.ceil_pos.mpr h
  unfold mathCeil
  exact_mod_cast h2

lemma mathFloor_le (x : ℚ) : mathFloor x ≤ x := Int.floor_le x

lemma mathFloor_nonneg {x : ℚ} (h : 0 ≤ x) : 0 ≤ mathFloor x := by
  have h2 : (0 : ℤ) ≤ ⌊x⌋ := Int.floor_nonneg.mpr h
  unfold mathFloor
  exact_mod_cast h2

lemma clampNonneg_nonneg (x : ℚ) : 0 ≤ clampNonneg x := by
  unfold clampNonneg
  split_ifs with h
  · exact le_refl 0
  · exact le_of_not_lt h

lemma le_mathCeil_mul {x m : ℚ} (hx : 0 ≤ x) (hm : 0 ≤ m) :
    x ≤ mathCeil (x * (1 + m)) :=
  le_trans (by nlinarith) (le_mathCeil _)

lemma mathCeil_mul_pos {x m : ℚ} (hx : 0 < x) (hm : 0 < m) :
    0 < mathCeil (x * (1 + m)) :=
  mathCeil_pos (by nlinarith)

/-- The inference pass keeps all three values non-negative, and a zero likely
(resp. pessimistic) output can only occur together with a zero optimistic
(resp. likely) output. -/
lemma inferEstimations_spec (o l p m : ℚ) (ho : 0 ≤ o) (hl : 0 ≤ l) (hp : 0 ≤ p)
    (hm0 : 0 < m) (hm1 : m < 1) :
    0 ≤ (inferEstimations o l p m).1 ∧
    0 ≤ (inferEstimations o l p m).2.1 ∧
    0 ≤ (inferEstimations o l p m).2.2 ∧
    ((inferEstimations o l p m).2.1 = 0 → (inferEstimations o l p m).1 = 0) ∧
    ((inferEstimations o l p m).2.2 = 0 → (inferEstimations o l p m).2.1 = 0) := by
  simp only [inferEstimations]
  split_ifs with h1 h2 h3 h4 h5 ha hb hc h6 <;> dsimp only
  · -- only optimistic
    have hl2 : 0 < mathCeil (o * (1 + m)) := mathCeil_mul_pos h1.1 hm0
    have hp2 : 0 < mathCeil (mathCeil (o * (1 + m)) * (1 + m)) := mathCeil_mul_pos hl2 hm0
    exact ⟨ho, hl2.le, hp2.le, fun h => absurd h (ne_of_gt hl2),
      fun h => absurd h (ne_of_gt hp2)⟩
  · -- only likely
    have hp2 : 0 < mathCeil (l * (1 + m)) := mathCeil_mul_pos h2.1 hm0
    exact ⟨clampNonneg_nonneg _, h2.1.le, hp2.le,
      fun h => absurd h (ne_of_gt h2.1), fun h => absurd h (ne_of_gt hp2)⟩
  · -- only pessimistic
    have hl2 : 0 ≤ mathFloor (p * (1 - m)) := mathFloor_nonneg (by nlinarith [h3.1])
    refine ⟨clampNonneg_nonneg _, hl2, hp, ?_, fun h => absurd h (ne_of_gt h3.1)⟩
    intro hz
    rw [hz]
    norm_num [mathFloor, clampNonneg]
  · -- optimistic and likely
    have hp2 : 0 < mathCeil (l * (1 + m)) := mathCeil_mul_pos h4.2.1 hm0
    exact ⟨ho, hl, hp2.le, fun h => absurd h (ne_of_gt h4.2.1),
      fun h => absurd h (ne_of_gt hp2)⟩
  · -- optimistic and pessimistic, midpoint clamped below then above
    exact ⟨h5.1.le, h5.2.1.le, h5.2.1.le, fun h => absurd h (ne_of_gt h5.2.1),
      fun h => absurd h (ne_of_gt h5.2.1)⟩
  · -- optimistic and pessimistic, midpoint clamped below only
    exact ⟨h5.1.le, h5.1.le, h5.2.1.le, fun h => absurd h (ne_of_gt h5.1),
      fun h => absurd h (ne_of_gt h5.2.1)⟩
  · -- optimistic and pessimistic, midpoint clamped above only
    exact ⟨h5.1.le, h5.2.1.le, h5.2.1.le, fun h => absurd h (ne_of_gt h5.2.1),
      fun h => absurd h (ne_of_gt h5.2.1)⟩
  · -- optimistic and pessimistic, midpoint not clamped
    have hmid : 0 < mathCeil ((o + p) / 2) := lt_of_lt_of_le h5.1 (le_of_not_lt ha)
    exact ⟨h5.1.le, hmid.le, h5.2.1.le, fun h => absurd h (ne_of_gt hmid),
      fun h => absurd h (ne_of_gt h5.2.1)⟩
  · -- likely and pessimistic
    exact ⟨clampNonneg_nonneg _, h6.1.le, h6.2.1.le, fun h => absurd h (ne_of_gt h6.1),
      fun h => absurd h (ne_of_gt h6.2.1)⟩
  · -- none inferred
    refine ⟨ho, hl, hp, ?_, ?_⟩
    · intro hl0
      by_contra ho0
      have ho' : 0 < o := lt_of_le_of_ne ho (Ne.symm ho0)
      rcases eq_or_lt_of_le hp with hp0 | hpp
      · exact h1 ⟨ho', hl0, hp0.symm⟩
      · exact h5 ⟨ho', hpp, hl0⟩
    · intro hp0
      by_contra hl0
      have hl' : 0 < l := lt_of_le_of_ne hl (Ne.symm hl0)
      rcases eq_or_lt_of_le ho with ho0 | hoo
      · exact h2 ⟨hl', ho0.symm, hp0⟩
      · exact h4 ⟨hoo, hl', hp0⟩

/-- The repair pass yields an ordered non-negative triple given the facts
established by the inference pass. -/
lemma repairEstimations_spec (o l p m : ℚ) (ho : 0 ≤ o) (hl : 0 ≤ l) (hp : 0 ≤ p)
    (hm : 0 < m) (hlo : l = 0 → o = 0) (hpl : p = 0 → l = 0) :
    0 ≤ (repairEstimations o l p m).1 ∧
    (repairEstimations o l p m).1 ≤ (repairEstimations o l p m).2.1 ∧
    (repairEstimations o l p m).2.1 ≤ (repairEstimations o l p m).2.2 := by
  simp only [repairEstimations]
  split_ifs with hA hB hC
  · -- likely repaired, then pessimistic repaired
    have hC0 : o ≤ mathCeil (o * (1 + m)) := le_mathCeil_mul ho hm.le
    exact ⟨ho, hC0, le_mathCeil_mul (le_trans ho hC0) hm.le⟩
  · -- likely repaired, pessimistic already above it
    refine ⟨ho, le_mathCeil_mul ho hm.le, ?_⟩
    rcases not_and_or.mp hB with hd1 | hd2
    · have hp0 : p = 0 := le_antisymm (le_of_not_lt hd1) hp
      exact absurd (hpl hp0) (ne_of_gt hA.1)
    · exact le_of_not_le hd2
  · -- likely kept, pessimistic repaired
    have hol : o ≤ l := by
      rcases not_and_or.mp hA with hd1 | hd2
      · have hl0 : l = 0 := le_antisymm (le_of_not_lt hd1) hl
        rw [hl0, hlo hl0]
      · exact (lt_of_not_le hd2).le
    exact ⟨ho, hol, le_mathCeil_mul hl hm.le⟩
  · -- nothing repaired
    have hol : o ≤ l := by
      rcases not_and_or.mp hA with hd1 | hd2
      · have hl0 : l = 0 := le_antisymm (le_of_not_lt hd1) hl
        rw [hl0, hlo hl0]
      · exact (lt_of_not_le hd2).le
    have hlp : l ≤ p := by
      rcases not_and_or.mp hC with hd1 | hd2
      · have hp0 : p = 0 := le_antisymm (le_of_not_lt hd1) hp
        rw [hp0, hpl hp0]
      · exact (lt_of_not_le hd2).le
    exact ⟨ho, hol, hlp⟩

/-- C1: For every non-negative input triple (O, L, P) and every multiplier m in
(0,1), after Task.SetEstimations(O, L, P, m) the stored estimations satisfy
0 ≤ O', 0 ≤ L', 0 ≤ P' and O' ≤ L' ≤ P'. -/
theorem setEstimations_ordered_nonneg (t : Task) (o l p m : ℚ)
    (ho : 0 ≤ o) (hl : 0 ≤ l) (hp : 0 ≤ p) (hm0 : 0 < m) (hm1 : m < 1) :
    0 ≤ (t.SetEstimations o l p m).estimations.optimistic ∧
    0 ≤ (t.SetEstimations o l p m).estimations.likely ∧
    0 ≤ (t.SetEstimations o l p m).estimations.pessimistic ∧
    (t.SetEstimations o l p m).estimations.optimistic ≤
      (t.SetEstimations o l p m).estimations.likely ∧
    (t.SetEstimations o l p m).estimations.likely ≤
      (t.SetEstimations o l p m).estimations.pessimistic := by
  obtain ⟨hIo, hIl, hIp, hIlo, hIpl⟩ := inferEstimations_spec o l p m ho hl hp hm0 hm1
  obtain ⟨hRo, hRol, hRlp⟩ := repairEstimations_spec (inferEstimations o l p m).1
    (inferEstimations o l p m).2.1 (inferEstimations o l p m).2.2 m hIo hIl hIp hm0 hIlo hIpl
  simp only [Task.SetEstimations, setEstimationsValues]
  exact ⟨hRo, le_trans hRo hRol, le_trans (le_trans hRo hRol) hRlp, hRol, hRlp⟩

/-- A fixed sample task used to instantiate the universally quantified
theorems at concrete inputs. -/
def task0 : Task :=
  { id := "t1", label := "Sample task", description := "", category := "development",
    estimations := { optimistic := 0, likely := 0, pessimistic := 0 } }

/-- Witness for C1: the theorem applied at the concrete input
(O, L, P, m) = (3, 1, 2, 1/2). -/
theorem setEstimations_ordered_nonneg_witness :
    0 ≤ (task0.SetEstimations 3 1 2 (1/2)).estimations.optimistic ∧
    0 ≤ (task0.SetEstimations 3 1 2 (1/2)).estimations.likely ∧
    0 ≤ (task0.SetEstimations 3 1 2 (1/2)).estimations.pessimistic ∧
    (task0.SetEstimations 3 1 2 (1/2)).estimations.optimistic ≤
      (task0.SetEstimations 3 1 2 (1/2)).estimations.likely ∧
    (task0.SetEstimations 3 1 2 (1/2)).estimations.likely ≤
      (task0.SetEstimations 3 1 2 (1/2)).estimations.pessimistic :=
  setEstimations_ordered_nonneg task0 3 1 2 (1/2) (by norm_num) (by norm_num)
    (by norm_num) (by norm_num) (by norm_num)

/-! Evaluation helpers for concrete ceil / floor values. -/

lemma mathCeil_eq (x : ℚ) (n : ℤ) (h1 : (n:ℚ) - 1 < x) (h2 : x ≤ (n:ℚ)) :
    mathCeil x = (n:ℚ) := by
  unfold mathCeil
  rw [Int.ceil_eq_iff.mpr ⟨h1, h2⟩]

lemma mathFloor_eq (x : ℚ) (n : ℤ) (h1 : (n:ℚ) ≤ x) (h2 : x < (n:ℚ) + 1) :
    mathFloor x = (n:ℚ) := by
  unfold mathFloor
  rw [Int.floor_eq_iff.mpr ⟨h1, by exact_mod_cast h2⟩]

lemma lt_mathCeil_mul {x m : ℚ} (hx : 0 < x) (hm : 0 < m) :
    x < mathCeil (x * (1 + m)) :=
  lt_of_lt_of_le (by nlinarith) (le_mathCeil _)

lemma clampNonneg_lt {x l : ℚ} (h0 : 0 < l) (h : x < l) : clampNonneg x < l := by
  unfold clampNonneg
  split_ifs
  · exact h0
  · exact h

/-- Branch lemma: when all three values are provided (non-zero), the inference
pass of SetEstimations performs no inference. -/
lemma inferEstimations_all_set (o l p m : ℚ) (ho : 0 < o) (hl : 0 < l) (hp : 0 < p) :
    inferEstimations o l p m = (o, l, p) := by
  simp only [inferEstimations]
  rw [if_neg (fun h => absurd h.2.1 (ne_of_gt hl)),
    if_neg (fun h => absurd h.2.1 (ne_of_gt ho)),
    if_neg (fun h => absurd h.2.1 (ne_of_gt ho)),
    if_neg (fun h => absurd h.2.2 (ne_of_gt hp)),
    if_neg (fun h => absurd h.2.2 (ne_of_gt hl)),
    if_neg (fun h => absurd h.2.2 (ne_of_gt ho))]

/-- Branch lemma: only the optimistic value is provided. -/
lemma inferEstimations_o_only (o m : ℚ) (ho : 0 < o) :
    inferEstimations o 0 0 m =
      (o, mathCeil (o * (1 + m)), mathCeil (mathCeil (o * (1 + m)) * (1 + m))) := by
  simp only [inferEstimations]
  rw [if_pos ⟨ho, trivial, trivial⟩]

/-- Branch lemma: only the likely value is provided. -/
lemma inferEstimations_l_only (l m : ℚ) (hl : 0 < l) :
    inferEstimations 0 l 0 m =
      (clampNonneg (mathFloor (l * (1 - m))), l, mathCeil (l * (1 + m))) := by
  simp only [inferEstimations]
  rw [if_neg (fun h => absurd h.1 (lt_irrefl 0)), if_pos ⟨hl, trivial, trivial⟩]

/-- Branch lemma: the repair pass changes nothing when both repair conditions fail. -/
lemma repairEstimations_noop (o l p m : ℚ) (h1 : ¬(0 < l ∧ l ≤ o)) (h2 : ¬(0 < p ∧ p ≤ l)) :
    repairEstimations o l p m = (o, l, p) := by
  simp only [repairEstimations]
  rw [if_neg h1, if_neg h2]

/-- The repair pass never modifies the optimistic value. -/
lemma repairEstimations_fst (o l p m : ℚ) : (repairEstimations o l p m).1 = o := rfl

/-- The inference pass keeps a strictly positive optimistic input unchanged. -/
lemma inferEstimations_fst_of_pos (o l p m : ℚ) (ho : 0 < o) :
    (inferEstimations o l p m).1 = o := by
  simp only [inferEstimations]
  split_ifs with h1 h2 h3 h4 h5 ha hb hc h6
  · rfl
  · exact absurd h2.2.1 (ne_of_gt ho)
  · exact absurd h3.2.1 (ne_of_gt ho)
  · rfl
  · rfl
  · rfl
  · rfl
  · rfl
  · exact absurd h6.2.2 (ne_of_gt ho)
  · rfl

/-- C10: whenever the optimistic input O is strictly positive,
Task.SetEstimations stores exactly that O as the resulting optimistic value:
neither the inference cases nor the forward repair pass overwrite it. -/
theorem setEstimations_preserves_positive_optimistic (t : Task) (o l p m : ℚ)
    (ho : 0 < o) :
    (t.SetEstimations o l p m).estimations.optimistic = o := by
  simp only [Task.SetEstimations, setEstimationsValues]
  show (repairEstimations (inferEstimations o l p m).1 (inferEstimations o l p m).2.1
    (inferEstimations o l p m).2.2 m).1 = o
  rw [repairEstimations_fst, inferEstimations_fst_of_pos o l p m ho]

/-- Witness for C10: the theorem applied at (O, L, P, m) = (1, 0, 0, 1/2). -/
theorem setEstimations_preserves_positive_optimistic_witness :
    (task0.SetEstimations 1 0 0 (1/2)).estimations.optimistic = 1 :=
  setEstimations_preserves_positive_optimistic task0 1 0 0 (1/2) one_pos

/-- C3 counterexample: the inputs O = L = P = 5 (which satisfy
0 < O ≤ L ≤ P) with multiplier 33/100 are changed by Task.SetEstimations:
the repair pass fires on L ≤ O and the result is (5, 7, 10), not (5, 5, 5). -/
theorem setEstimations_identity_counterexample :
    (task0.SetEstimations 5 5 5 (33/100)).estimations = ⟨5, 7, 10⟩ ∧
    (task0.SetEstimations 5 5 5 (33/100)).estimations ≠ ⟨5, 5, 5⟩ := by
  have c1 : mathCeil ((5:ℚ) * (1 + 33/100)) = 7 := by
    rw [mathCeil_eq _ 7 (by norm_num) (by norm_num)]
    norm_num
  have c2 : mathCeil ((7:ℚ) * (1 + 33/100)) = 10 := by
    rw [mathCeil_eq _ 10 (by norm_num) (by norm_num)]
    norm_num
  have hrep : repairEstimations 5 5 5 (33/100) = (5, 7, 10) := by
    simp only [repairEstimations]
    rw [if_pos ⟨by norm_num, le_refl (5:ℚ)⟩, c1, if_pos ⟨by norm_num, by norm_num⟩, c2]
  have hmain : (task0.SetEstimations 5 5 5 (33/100)).estimations = ⟨5, 7, 10⟩ := by
    simp only [Task.SetEstimations, setEstimationsValues,
      inferEstimations_all_set 5 5 5 (33/100) (by norm_num) (by norm_num) (by norm_num),
      hrep]
  refine ⟨hmain, ?_⟩
  rw [hmain]
  simp only [ne_eq, Estimations.mk.injEq, not_and]
  intro _ h
  norm_num at h

/-- C3 (amended): for every triple with 0 < O < L < P (strict inequalities)
and any multiplier, Task.SetEstimations leaves the three values unchanged.
(With O = L or L = P the repair pass fires, since it triggers on non-strict
comparisons; see the counterexample.) -/
theorem setEstimations_identity_of_strict (t : Task) (o l p m : ℚ)
    (ho : 0 < o) (hol : o < l) (hlp : l < p) :
    (t.SetEstimations o l p m).estimations = ⟨o, l, p⟩ := by
  simp only [Task.SetEstimations, setEstimationsValues,
    inferEstimations_all_set o l p m ho (ho.trans hol) ((ho.trans hol).trans hlp),
    repairEstimations_noop o l p m (fun h => absurd h.2 (not_le.mpr hol))
      (fun h => absurd h.2 (not_le.mpr hlp))]

/-- Witness for C3: the amended theorem applied at (O, L, P) = (1, 2, 3). -/
theorem setEstimations_identity_of_strict_witness :
    (task0.SetEstimations 1 2 3 (1/2)).estimations = ⟨1, 2, 3⟩ :=
  setEstimations_identity_of_strict task0 1 2 3 (1/2) one_pos one_lt_two (by norm_num)

/-- C8: single-value inference. Providing only O (with O, m > 0) yields
L = ceil(O·(1+m)) and P = ceil(L·(1+m)); providing only L yields
O = floor(L·(1−m)) clamped to ≥ 0 and P = ceil(L·(1+m)); in particular
O = 4 with m = 0.33 gives (4, 6, 8) and L = 10 with m = 0.33 gives (6, 10, 14). -/
theorem setEstimations_single_value_inference :
    (∀ (t : Task) (o m : ℚ), 0 < o → 0 < m →
      (t.SetEstimations o 0 0 m).estimations =
        ⟨o, mathCeil (o * (1 + m)), mathCeil (mathCeil (o * (1 + m)) * (1 + m))⟩) ∧
    (∀ (t : Task) (l m : ℚ), 0 < l → 0 < m →
      (t.SetEstimations 0 l 0 m).estimations =
        ⟨clampNonneg (mathFloor (l * (1 - m))), l, mathCeil (l * (1 + m))⟩) ∧
    (task0.SetEstimations 4 0 0 (33/100)).estimations = ⟨4, 6, 8⟩ ∧
    (task0.SetEstimations 0 10 0 (33/100)).estimations = ⟨6, 10, 14⟩ := by
  have hO : ∀ (t : Task) (o m : ℚ), 0 < o → 0 < m →
      (t.SetEstimations o 0 0 m).estimations =
        ⟨o, mathCeil (o * (1 + m)), mathCeil (mathCeil (o * (1 + m)) * (1 + m))⟩ := by
    intro t o m ho hm
    have hlo : o < mathCeil (o * (1 + m)) := lt_mathCeil_mul ho hm
    have hpl : mathCeil (o * (1 + m)) < mathCeil (mathCeil (o * (1 + m)) * (1 + m)) :=
      lt_mathCeil_mul (ho.trans hlo) hm
    simp only [Task.SetEstimations, setEstimationsValues, inferEstimations_o_only o m ho,
      repairEstimations_noop _ _ _ m (fun h => absurd h.2 (not_le.mpr hlo))
        (fun h => absurd h.2 (not_le.mpr hpl))]
  have hL : ∀ (t : Task) (l m : ℚ), 0 < l → 0 < m →
      (t.SetEstimations 0 l 0 m).estimations =
        ⟨clampNonneg (mathFloor (l * (1 - m))), l, mathCeil (l * (1 + m))⟩ := by
    intro t l m hl hm
    have hol : clampNonneg (mathFloor (l * (1 - m))) < l :=
      clampNonneg_lt hl (lt_of_le_of_lt (mathFloor_le _) (by nlinarith))
    have hlp : l < mathCeil (l * (1 + m)) := lt_mathCeil_mul hl hm
    simp only [Task.SetEstimations, setEstimationsValues, inferEstimations_l_only l m hl,
      repairEstimations_noop _ _ _ m (fun h => absurd h.2 (not_le.mpr hol))
        (fun h => absurd h.2 (not_le.mpr hlp))]
  refine ⟨hO, hL, ?_, ?_⟩
  · rw [hO task0 4 (33/100) (by norm_num) (by norm_num)]
    have c1 : mathCeil ((4:ℚ) * (1 + 33/100)) = 6 := by
      rw [mathCeil_eq _ 6 (by norm_num) (by norm_num)]
      norm_num
    rw [c1]
    have c2 : mathCeil ((6:ℚ) * (1 + 33/100)) = 8 := by
      rw [mathCeil_eq _ 8 (by norm_num) (by norm_num)]
      norm_num
    rw [c2]
  · rw [hL task0 10 (33/100) (by norm_num) (by norm_num)]
    have f1 : mathFloor ((10:ℚ) * (1 - 33/100)) = 6 := by
      rw [mathFloor_eq _ 6 (by norm_num) (by norm_num)]
      norm_num
    have c3 : mathCeil ((10:ℚ) * (1 + 33/100)) = 14 := by
      rw [mathCeil_eq _ 14 (by norm_num) (by norm_num)]
      norm_num
    rw [f1, c3]
    have : clampNonneg (6:ℚ) = 6 := by norm_num [clampNonneg]
    rw [this]

/-- Witness for C8: the first conjunct applied at O = 4, m = 33/100. -/
theorem setEstimations_single_value_inference_witness :
    (task0.SetEstimations 4 0 0 (33/100)).estimations =
      ⟨4, mathCeil (4 * (1 + 33/100)), mathCeil (mathCeil (4 * (1 + 33/100)) * (1 + 33/100))⟩ :=
  setEstimations_single_value_inference.1 task0 4 (33/100) (by simp) (by simp)

/-! The Estimation aggregate: the Go Tasks map is modelled as an association
list, and time.Now() as an explicit clock argument. -/

/-- Estimation represents a project estimation with multiple tasks (Go struct
Estimation). -/
structure Estimation where
  id : String
  label : String
  description : String
  createdAt : ℕ
  updatedAt : ℕ
  ordering : List TaskID
  tasks : List (TaskID × Task)
deriving Repr, DecidableEq

/-- Key list of the association list modelling the Go Tasks map. -/
def mapKeys (ts : List (TaskID × Task)) : List TaskID := ts.map (fun kv => kv.1)

/-- Go map assignment m[k] = v: replace the binding if the key is present,
otherwise add a new binding. -/
def mapInsert (ts : List (TaskID × Task)) (k : TaskID) (v : Task) :
    List (TaskID × Task) :=
  if k ∈ mapKeys ts then ts.map (fun kv => if kv.1 = k then (k, v) else kv)
  else ts ++ [(k, v)]

/-- Go delete(m, k): remove the binding for k if present. -/
def mapDelete (ts : List (TaskID × Task)) (k : TaskID) : List (TaskID × Task) :=
  ts.filter (fun kv => kv.1 ≠ k)

/-- NewEstimation creates a new estimation with the given label (Go
NewEstimation); the generated identifier and the clock are parameters. -/
def NewEstimation (id : String) (label : String) (now : ℕ) : Estimation :=
  { id := id, label := label, description := "", createdAt := now, updatedAt := now,
    ordering := [], tasks := [] }

/-- AddTask adds a new task to the estimation (Go Estimation.AddTask). -/
def Estimation.AddTask (e : Estimation) (now : ℕ) (task : Task) : Estimation :=
  { e with tasks := mapInsert e.tasks task.id task,
           ordering := e.ordering ++ [task.id],
           updatedAt := now }

/-- RemoveTask removes a task from the estimation (Go Estimation.RemoveTask):
it deletes the map binding, removes the first matching identifier from the
ordering, and unconditionally sets the UpdatedAt timestamp to the current
time. -/
def Estimation.RemoveTask (e : Estimation) (now : ℕ) (id : TaskID) : Estimation :=
  { e with tasks := mapDelete e.tasks id,
           ordering := e.ordering.erase id,
           updatedAt := now }

/-- Index of the first occurrence of id (the Go search loop in MoveTask). -/
def findIndex : List TaskID → TaskID → Option ℕ
  | [], _ => none
  | x :: xs, id => if x = id then some 0 else (findIndex xs id).map (fun i => i + 1)

/-- MoveTask moves a task in the ordering by the specified offset (Go
Estimation.MoveTask); the Go boolean result is returned together with the
updated estimation. -/
def Estimation.MoveTask (e : Estimation) (now : ℕ) (id : TaskID) (offset : ℤ) :
    Bool × Estimation :=
  match findIndex e.ordering id with
  | none => (false, e)
  | some currentIndex =>
    let newIndex : ℤ := (currentIndex : ℤ) + offset
    if newIndex < 0 ∨ (e.ordering.length : ℤ) ≤ newIndex then (false, e)
    else
      (true, { e with
        ordering := List.insertIdx newIndex.toNat id (e.ordering.eraseIdx currentIndex),
        updatedAt := now })

/-- mapDelete is the identity when the key is absent. -/
lemma mapDelete_of_not_mem (ts : List (TaskID × Task)) (k : TaskID)
    (h : k ∉ mapKeys ts) : mapDelete ts k = ts := by
  induction ts with
  | nil => rfl
  | cons kv rest ih =>
    have hk : ¬ (kv.1 = k) := fun hkv => h (by simp [mapKeys, hkv])
    have hr : k ∉ mapKeys rest := fun hm => h (by simp [mapKeys] at hm ⊢; exact Or.inr hm)
    simp [mapDelete, hk, List.filter] at ih ⊢
    exact ih hr

/-- A fixed sample estimation used to instantiate theorems at concrete inputs. -/
def estimation0 : Estimation := NewEstimation "e1" "Sample estimation" 0

/-- C4 counterexample: removing an identifier that is absent from the Tasks
mapping leaves the mapping and the ordering unchanged, but it still updates
the UpdatedAt timestamp (the Go code touches the timestamp unconditionally),
contradicting the claim that UpdatedAt is unchanged in that case. -/
theorem removeTask_absent_timestamp_counterexample :
    ((estimation0.RemoveTask 1 "missing").tasks = estimation0.tasks) ∧
    ((estimation0.RemoveTask 1 "missing").ordering = estimation0.ordering) ∧
    ((estimation0.RemoveTask 1 "missing").updatedAt ≠ estimation0.updatedAt) := by
  refine ⟨rfl, rfl, ?_⟩
  decide

/-- C4 (amended): RemoveTask(id) with an identifier absent from the Tasks
mapping and from the Ordering leaves both structures unchanged, but it
always sets UpdatedAt to the current time, even when nothing was removed. -/
theorem removeTask_absent_noop_except_timestamp (e : Estimation) (now : ℕ)
    (id : TaskID) (h1 : id ∉ mapKeys e.tasks) (h2 : id ∉ e.ordering) :
    e.RemoveTask now id = { e with updatedAt := now } := by
  simp only [Estimation.RemoveTask]
  rw [mapDelete_of_not_mem e.tasks id h1, List.erase_of_not_mem h2]

/-- Witness for C4 (amended): removing an absent identifier from the sample
estimation only touches the timestamp. -/
theorem removeTask_absent_noop_except_timestamp_witness :
    estimation0.RemoveTask 5 "x" = { estimation0 with updatedAt := 5 } :=
  removeTask_absent_noop_except_timestamp estimation0 5 "x" (by simp [estimation0,
    NewEstimation, mapKeys]) (by simp [estimation0, NewEstimation])

/-! Lemmas about findIndex and the splice performed by MoveTask. -/

lemma findIndex_eq_none {l : List TaskID} {id : TaskID} (h : id ∉ l) :
    findIndex l id = none := by
  induction l with
  | nil => rfl
  | cons x xs ih =>
    have hx : ¬ (x = id) := fun hxeq => h (List.mem_cons.mpr (Or.inl hxeq.symm))
    have hm : id ∉ xs := fun hmem => h (List.mem_cons_of_mem x hmem)
    simp [findIndex, hx, ih hm]

lemma findIndex_isSome_of_mem {l : List TaskID} {id : TaskID} (h : id ∈ l) :
    ∃ i, findIndex l id = some i := by
  induction l with
  | nil => exact absurd h (List.not_mem_nil id)
  | cons x xs ih =>
    by_cases hx : x = id
    · exact ⟨0, by simp [findIndex, hx]⟩
    · have hm : id ∈ xs := by
        rcases List.mem_cons.mp h with h1 | h2
        · exact absurd h1.symm hx
        · exact h2
      obtain ⟨j, hj⟩ := ih hm
      exact ⟨j + 1, by simp [findIndex, hx, hj]⟩

lemma findIndex_lt_length : ∀ {l : List TaskID} {id : TaskID} {i : ℕ},
    findIndex l id = some i → i < l.length
  | [], _, _, h => by simp [findIndex] at h
  | x :: xs, id, i, h => by
    by_cases hx : x = id
    · simp [findIndex, hx] at h
      rw [← h]
      exact Nat.succ_pos _
    · simp only [findIndex, if_neg hx, Option.map_eq_some'] at h
      obtain ⟨j, hj, hji⟩ := h
      rw [← hji]
      exact Nat.succ_lt_succ (findIndex_lt_length hj)

lemma findIndex_get : ∀ {l : List TaskID} {id : TaskID} {i : ℕ},
    findIndex l id = some i → ∀ (hi : i < l.length), l.get ⟨i, hi⟩ = id
  | [], _, _, h => by simp [findIndex] at h
  | x :: xs, id, i, h => by
    by_cases hx : x = id
    · simp [findIndex, hx] at h
      intro hi
      subst h
      exact hx
    · simp only [findIndex, if_neg hx, Option.map_eq_some'] at h
      obtain ⟨j, hj, hji⟩ := h
      subst hji
      intro hi
      exact findIndex_get hj (Nat.lt_of_succ_lt_succ hi)

lemma findIndex_append_singleton : ∀ (init : List TaskID) (id : TaskID),
    id ∉ init → findIndex (init ++ [id]) id = some init.length
  | [], id, _ => by simp [findIndex]
  | x :: xs, id, h => by
    have hx : ¬ (x = id) := fun hxeq => h (List.mem_cons.mpr (Or.inl hxeq.symm))
    have hm : id ∉ xs := fun hmem => h (List.mem_cons_of_mem x hmem)
    simp [findIndex, hx, findIndex_append_singleton xs id hm]

lemma insertIdx_get_eraseIdx : ∀ (l : List TaskID) (i : ℕ) (hi : i < l.length),
    List.insertIdx i (l.get ⟨i, hi⟩) (l.eraseIdx i) = l
  | [], i, hi => by simp at hi
  | x :: xs, 0, _ => rfl
  | x :: xs, i + 1, hi =>
    congrArg (fun t => x :: t)
      (insertIdx_get_eraseIdx xs i (Nat.lt_of_succ_lt_succ hi))

/-- Unfolding lemma: MoveTask fails when the identifier is not found. -/
lemma moveTask_fail_of_none {e : Estimation} {now : ℕ} {id : TaskID} {off : ℤ}
    (h : findIndex e.ordering id = none) : e.MoveTask now id off = (false, e) := by
  simp [Estimation.MoveTask, h]

/-- Unfolding lemma: MoveTask fails when the destination index is out of range. -/
lemma moveTask_fail_of_range {e : Estimation} {now : ℕ} {id : TaskID} {off : ℤ}
    {ci : ℕ} (h : findIndex e.ordering id = some ci)
    (hr : (ci : ℤ) + off < 0 ∨ (e.ordering.length : ℤ) ≤ (ci : ℤ) + off) :
    e.MoveTask now id off = (false, e) := by
  simp [Estimation.MoveTask, h, hr]

/-- Unfolding lemma: MoveTask succeeds when the destination index is in range. -/
lemma moveTask_success {e : Estimation} {now : ℕ} {id : TaskID} {off : ℤ}
    {ci : ℕ} (h : findIndex e.ordering id = some ci)
    (hr : ¬((ci : ℤ) + off < 0 ∨ (e.ordering.length : ℤ) ≤ (ci : ℤ) + off)) :
    e.MoveTask now id off =
      (true, { e with
        ordering := List.insertIdx ((ci : ℤ) + off).toNat id (e.ordering.eraseIdx ci),
        updatedAt := now }) := by
  simp [Estimation.MoveTask, h, hr]

/-- C7: the MoveTask contract. Moving an absent identifier or moving to a
destination index outside [0, length) returns false and leaves the estimation
(ordering and tasks) unchanged; moving a present identifier by offset 0
returns true and leaves the ordering and tasks unchanged; moving the first
task by -1 or the last task by +1 returns false and changes nothing. -/
theorem moveTask_contract (e : Estimation) (now : ℕ) (id : TaskID) (off : ℤ) :
    (id ∉ e.ordering → e.MoveTask now id off = (false, e)) ∧
    (∀ ci : ℕ, findIndex e.ordering id = some ci →
      ((ci : ℤ) + off < 0 ∨ (e.ordering.length : ℤ) ≤ (ci : ℤ) + off) →
      e.MoveTask now id off = (false, e)) ∧
    (id ∈ e.ordering →
      (e.MoveTask now id 0).1 = true ∧
      (e.MoveTask now id 0).2.ordering = e.ordering ∧
      (e.MoveTask now id 0).2.tasks = e.tasks) ∧
    (∀ rest : List TaskID, e.ordering = id :: rest →
      e.MoveTask now id (-1) = (false, e)) ∧
    (∀ init : List TaskID, e.ordering = init ++ [id] → id ∉ init →
      e.MoveTask now id 1 = (false, e)) := by
  refine ⟨?_, ?_, ?_, ?_, ?_⟩
  · intro h
    exact moveTask_fail_of_none (findIndex_eq_none h)
  · intro ci h hr
    exact moveTask_fail_of_range h hr
  · intro h
    obtain ⟨ci, hci⟩ := findIndex_isSome_of_mem h
    have hlt : ci < e.ordering.length := findIndex_lt_length hci
    have hr : ¬((ci : ℤ) + 0 < 0 ∨ (e.ordering.length : ℤ) ≤ (ci : ℤ) + 0) := by
      push_neg
      constructor
      · positivity
      · exact_mod_cast hlt
    rw [moveTask_success hci hr]
    refine ⟨rfl, ?_, rfl⟩
    show List.insertIdx ((ci : ℤ) + 0).toNat id (e.ordering.eraseIdx ci) = e.ordering
    have htn : ((ci : ℤ) + 0).toNat = ci := by simp
    rw [htn, ← findIndex_get hci hlt]
    exact insertIdx_get_eraseIdx e.ordering ci hlt
  · intro rest hord
    have hfi : findIndex e.ordering id = some 0 := by
      rw [hord]
      simp [findIndex]
    exact moveTask_fail_of_range hfi (Or.inl (by norm_num))
  · intro init hord hni
    have hfi : findIndex e.ordering id = some init.length := by
      rw [hord]
      exact findIndex_append_singleton init id hni
    refine moveTask_fail_of_range hfi (Or.inr ?_)
    rw [hord]
    simp

/-- A second sample estimation with two tasks, for witnesses of the aggregate
operations. -/
def taskA : Task :=
  { id := "a", label := "Task A", description := "", category := "development",
    estimations := { optimistic := 2, likely := 4, pessimistic := 6 } }

/-- A second concrete task, used in witnesses. -/
def taskB : Task :=
  { id := "b", label := "Task B", description := "", category := "testing",
    estimations := { optimistic := 1, likely := 2, pessimistic := 3 } }

/-- Concrete estimation holding taskA and taskB in order. -/
def estimation2 : Estimation :=
  { id := "e2", label := "Two tasks", description := "", createdAt := 0, updatedAt := 0,
    ordering := ["a", "b"], tasks := [("a", taskA), ("b", taskB)] }

/-- Witness for C7: the contract applied to the concrete two-task estimation:
moving an absent identifier, moving the first task by -1, moving the last
task by +1 (all failures), and moving a present task by 0 (success, ordering
and tasks unchanged). -/
theorem moveTask_contract_witness :
    (estimation2.MoveTask 1 "c" 5 = (false, estimation2)) ∧
    (estimation2.MoveTask 1 "a" (-1) = (false, estimation2)) ∧
    (estimation2.MoveTask 1 "b" 1 = (false, estimation2)) ∧
    ((estimation2.MoveTask 1 "a" 0).1 = true ∧
      (estimation2.MoveTask 1 "a" 0).2.ordering = estimation2.ordering ∧
      (estimation2.MoveTask 1 "a" 0).2.tasks = estimation2.tasks) :=
  ⟨(moveTask_contract estimation2 1 "c" 5).1 (by decide),
   (moveTask_contract estimation2 1 "a" (-1)).2.2.2.1 ["b"] (by decide),
   (moveTask_contract estimation2 1 "b" 1).2.2.2.2 ["a"] (by decide) (by decide),
   (moveTask_contract estimation2 1 "a" 0).2.2.1 (by decide)⟩

/-! Structural invariant of the Estimation aggregate (C2): permutation lemmas
for the MoveTask splice and preservation of the ordering/mapping invariant. -/

lemma perm_insertIdx_cons (a : TaskID) : ∀ (n : ℕ) (l : List TaskID),
    n ≤ l.length → (List.insertIdx n a l).Perm (a :: l)
  | 0, l, _ => List.Perm.refl _
  | n + 1, [], h => absurd h (by simp)
  | n + 1, x :: xs, h => by
    simp only [List.insertIdx_succ_cons]
    exact ((perm_insertIdx_cons a n xs (Nat.le_of_succ_le_succ h)).cons x).trans
      (List.Perm.swap a x xs)

lemma perm_cons_eraseIdx : ∀ (l : List TaskID) (i : ℕ) (hi : i < l.length),
    l.Perm (l.get ⟨i, hi⟩ :: l.eraseIdx i)
  | [], i, hi => absurd hi (by simp)
  | x :: xs, 0, _ => List.Perm.refl _
  | x :: xs, i + 1, hi => by
    have IH := perm_cons_eraseIdx xs i (Nat.lt_of_succ_lt_succ hi)
    exact (IH.cons x).trans (List.Perm.swap (xs.get ⟨i, Nat.lt_of_succ_lt_succ hi⟩) x _)

/-- MoveTask never changes the Tasks mapping, and its resulting ordering is a
permutation of the original one. -/
lemma moveTask_perm (e : Estimation) (now : ℕ) (id : TaskID) (off : ℤ) :
    (e.MoveTask now id off).2.ordering.Perm e.ordering ∧
    (e.MoveTask now id off).2.tasks = e.tasks := by
  cases hfi : findIndex e.ordering id with
  | none =>
    rw [moveTask_fail_of_none hfi]
    exact ⟨List.Perm.refl _, rfl⟩
  | some ci =>
    by_cases hr : (ci : ℤ) + off < 0 ∨ (e.ordering.length : ℤ) ≤ (ci : ℤ) + off
    · rw [moveTask_fail_of_range hfi hr]
      exact ⟨List.Perm.refl _, rfl⟩
    · rw [moveTask_success hfi hr]
      refine ⟨?_, rfl⟩
      push_neg at hr
      have hlt : ci < e.ordering.length := findIndex_lt_length hfi
      have hub : ((ci : ℤ) + off).toNat < e.ordering.length := by
        rw [← Nat.cast_lt (α := ℤ), Int.toNat_of_nonneg hr.1]
        exact lt_of_lt_of_le hr.2 (le_refl _) |>.trans_le (le_refl _)
      have hle : ((ci : ℤ) + off).toNat ≤ (e.ordering.eraseIdx ci).length := by
        rw [List.length_eraseIdx_of_lt hlt]
        exact Nat.le_sub_one_of_lt hub
      refine ((perm_insertIdx_cons id _ _ hle).trans ?_)
      rw [← findIndex_get hfi hlt]
      exact (perm_cons_eraseIdx e.ordering ci hlt).symm

/-- An editing operation on the aggregate: the operations quantified over by
the structural-invariant claim. -/
inductive Op where
  | add (task : Task)
  | remove (id : TaskID)
  | move (id : TaskID) (offset : ℤ)
deriving Repr, DecidableEq

/-- Apply one operation (the clock value is irrelevant to the invariant). -/
def applyOp (e : Estimation) : Op → Estimation
  | Op.add t => e.AddTask 0 t
  | Op.remove id => e.RemoveTask 0 id
  | Op.move id off => (e.MoveTask 0 id off).2

/-- Apply a sequence of operations in order. -/
def applyOps (e : Estimation) (ops : List Op) : Estimation := ops.foldl applyOp e

/-- Every add in the sequence uses a fresh identifier (not already a key of
the Tasks mapping) at the moment it is applied. -/
def opsFresh : Estimation → List Op → Bool
  | _, [] => true
  | e, op :: ops =>
    (match op with
     | Op.add t => decide (t.id ∉ mapKeys e.tasks)
     | _ => true) && opsFresh (applyOp e op) ops

/-- The structural invariant of the claim: the ordering has no duplicates and
holds exactly the key set of the Tasks mapping. -/
def OrderingInv (e : Estimation) : Prop :=
  e.ordering.Nodup ∧ ∀ id : TaskID, id ∈ e.ordering ↔ id ∈ mapKeys e.tasks

/-- Strengthened invariant carried through the induction: the association
list modelling the Go map also has pairwise-distinct keys. -/
def FullInv (e : Estimation) : Prop := OrderingInv e ∧ (mapKeys e.tasks).Nodup

lemma mapKeys_mapInsert_of_not_mem (ts : List (TaskID × Task)) (k : TaskID) (v : Task)
    (h : k ∉ mapKeys ts) : mapKeys (mapInsert ts k v) = mapKeys ts ++ [k] := by
  simp only [mapInsert, if_neg h]
  simp [mapKeys]

lemma mapKeys_mapDelete (ts : List (TaskID × Task)) (k : TaskID) :
    mapKeys (mapDelete ts k) = (mapKeys ts).filter (fun x => x ≠ k) := by
  induction ts with
  | nil => rfl
  | cons kv rest ih =>
    by_cases hk : kv.1 = k
    · simp [mapDelete, mapKeys, hk, List.filter] at ih ⊢
      exact ih
    · simp [mapDelete, mapKeys, hk, List.filter] at ih ⊢
      exact ih

lemma fullInv_addTask {e : Estimation} (hI : FullInv e) {now : ℕ} {t : Task}
    (hf : t.id ∉ mapKeys e.tasks) : FullInv (e.AddTask now t) := by
  obtain ⟨⟨hnd, hiff⟩, hknd⟩ := hI
  have hnotord : t.id ∉ e.ordering := fun hm => hf ((hiff t.id).mp hm)
  refine ⟨⟨?_, ?_⟩, ?_⟩
  · simp [Estimation.AddTask, List.nodup_append, hnd, hnotord]
  · intro x
    simp only [Estimation.AddTask, mapKeys_mapInsert_of_not_mem e.tasks t.id t hf,
      List.mem_append, List.mem_singleton]
    rw [hiff x]
  · simp [Estimation.AddTask, mapKeys_mapInsert_of_not_mem e.tasks t.id t hf,
      List.nodup_append, hknd, hf]

lemma fullInv_removeTask {e : Estimation} (hI : FullInv e) {now : ℕ} {id : TaskID} :
    FullInv (e.RemoveTask now id) := by
  obtain ⟨⟨hnd, hiff⟩, hknd⟩ := hI
  refine ⟨⟨?_, ?_⟩, ?_⟩
  · exact hnd.erase id
  · intro x
    simp only [Estimation.RemoveTask, mapKeys_mapDelete, hnd.mem_erase_iff,
      List.mem_filter]
    rw [hiff x]
    constructor
    · intro ⟨hne, hmem⟩
      exact ⟨hmem, by simpa using hne⟩
    · intro ⟨hmem, hne⟩
      exact ⟨by simpa using hne, hmem⟩
  · simp only [Estimation.RemoveTask, mapKeys_mapDelete]
    exact hknd.filter _

lemma fullInv_moveTask {e : Estimation} (hI : FullInv e) {now : ℕ} {id : TaskID}
    {off : ℤ} : FullInv ((e.MoveTask now id off).2) := by
  obtain ⟨⟨hnd, hiff⟩, hknd⟩ := hI
  obtain ⟨hperm, htasks⟩ := moveTask_perm e now id off
  refine ⟨⟨hperm.nodup_iff.mpr hnd, ?_⟩, ?_⟩
  · intro x
    rw [hperm.mem_iff, htasks]
    exact hiff x
  · rw [htasks]
    exact hknd

lemma fullInv_applyOps : ∀ (ops : List Op) (e : Estimation), FullInv e →
    opsFresh e ops = true → FullInv (applyOps e ops)
  | [], _, hI, _ => hI
  | op :: ops, e, hI, hf => by
    simp only [opsFresh, Bool.and_eq_true] at hf
    have hstep : FullInv (applyOp e op) := by
      cases op with
      | add t =>
        have hfresh : t.id ∉ mapKeys e.tasks := by
          have := hf.1
          simpa using this
        exact fullInv_addTask hI hfresh
      | remove id => exact fullInv_removeTask hI
      | move id off => exact fullInv_moveTask hI
    exact fullInv_applyOps ops (applyOp e op) hstep hf.2

/-- C2: starting from a fresh empty estimation, after any sequence of
AddTask (with fresh identifiers), RemoveTask and MoveTask operations, the
ordering sequence has no duplicates and contains exactly the identifiers
that are keys of the Tasks mapping. -/
theorem estimation_ordering_invariant (id label : String) (now : ℕ) (ops : List Op)
    (h : opsFresh (NewEstimation id label now) ops = true) :
    (applyOps (NewEstimation id label now) ops).ordering.Nodup ∧
    (∀ tid : TaskID, tid ∈ (applyOps (NewEstimation id label now) ops).ordering ↔
      tid ∈ mapKeys (applyOps (NewEstimation id label now) ops).tasks) := by
  have hI0 : FullInv (NewEstimation id label now) := by
    refine ⟨⟨List.nodup_nil, ?_⟩, List.nodup_nil⟩
    intro tid
    simp [NewEstimation, mapKeys]
  exact (fullInv_applyOps ops (NewEstimation id label now) hI0 h).1

/-- Witness for C2: a concrete sequence (two adds, a move, a remove, and two
failing operations) applied to a fresh estimation. -/
theorem estimation_ordering_invariant_witness :
    (applyOps (NewEstimation "e3" "Witness" 0)
      [Op.add taskA, Op.add taskB, Op.move "a" 1, Op.remove "b",
       Op.move "zz" 1, Op.remove "zz"]).ordering.Nodup ∧
    (∀ tid : TaskID, tid ∈ (applyOps (NewEstimation "e3" "Witness" 0)
      [Op.add taskA, Op.add taskB, Op.move "a" 1, Op.remove "b",
       Op.move "zz" 1, Op.remove "zz"]).ordering ↔
      tid ∈ mapKeys (applyOps (NewEstimation "e3" "Witness" 0)
      [Op.add taskA, Op.add taskB, Op.move "a" 1, Op.remove "b",
       Op.move "zz" 1, Op.remove "zz"]).tasks) :=
  estimation_ordering_invariant "e3" "Witness" 0
    [Op.add taskA, Op.add taskB, Op.move "a" 1, Op.remove "b",
     Op.move "zz" 1, Op.remove "zz"] (by decide)

/-! The statistics engine (Go package stats): project estimation, category
estimation and category distribution. -/

/-- TaskCategory represents a category of tasks with associated cost (Go
struct TaskCategory). -/
structure TaskCategory where
  id : String
  label : String
  costPerTimeUnit : ℚ
deriving Repr, DecidableEq

/-- Config represents the application configuration (Go struct Config); the
TaskCategories map is modelled as an association list. -/
structure Config where
  taskCategories : List (String × TaskCategory)
  currency : String
  roundUpEstimations : Bool
  autoEstimationMultiplier : ℚ
deriving Repr, DecidableEq

/-- GetTaskCategory returns a task category by ID, or a synthesized default
one if not found (Go Config.GetTaskCategory). -/
def Config.GetTaskCategory (c : Config) (id : String) : TaskCategory :=
  match c.taskCategories.find? (fun kv => kv.1 = id) with
  | some kv => kv.2
  | none => { id := id, label := id, costPerTimeUnit := 500 }

/-- EstimationResult contains the calculated estimation results (Go struct
EstimationResult); real-valued because of the square root. -/
structure EstimationResult where
  weightedMean : ℝ
  standardDeviation : ℝ

/-- The accumulation loop of CalculateProjectEstimation for totalMean. -/
def projectWeightedMean (e : Estimation) : ℚ :=
  e.tasks.foldl (fun acc kv => acc + kv.2.WeightedMean) 0

/-- The accumulation loop of CalculateProjectEstimation for totalVariance
(math.Pow(sd, 2) summed over all tasks). -/
def projectVariance (e : Estimation) : ℚ :=
  e.tasks.foldl (fun acc kv => acc + kv.2.StandardDeviation ^ 2) 0

/-- CalculateProjectEstimation calculates the weighted mean and standard
deviation for an entire project (Go CalculateProjectEstimation). -/
noncomputable def CalculateProjectEstimation (e : Estimation) : EstimationResult :=
  { weightedMean := (projectWeightedMean e : ℝ),
    standardDeviation := Real.sqrt ((projectVariance e : ℚ) : ℝ) }

/-- The accumulation loop of CalculateCategoryEstimation for totalMean: only
tasks whose category matches contribute. -/
def categoryWeightedMean (e : Estimation) (categoryID : String) : ℚ :=
  e.tasks.foldl
    (fun acc kv => if kv.2.category = categoryID then acc + kv.2.WeightedMean else acc) 0

/-- The accumulation loop of CalculateCategoryEstimation for totalVariance. -/
def categoryVariance (e : Estimation) (categoryID : String) : ℚ :=
  e.tasks.foldl
    (fun acc kv => if kv.2.category = categoryID then acc + kv.2.StandardDeviation ^ 2 else acc) 0

/-- CalculateCategoryEstimation calculates the weighted mean and standard
deviation for a specific category (Go CalculateCategoryEstimation). -/
noncomputable def CalculateCategoryEstimation (e : Estimation) (categoryID : String) :
    EstimationResult :=
  { weightedMean := (categoryWeightedMean e categoryID : ℝ),
    standardDeviation := Real.sqrt ((categoryVariance e categoryID : ℚ) : ℝ) }

/-- CategoryDistribution represents the distribution of time across categories
(Go struct CategoryDistribution). -/
structure CategoryDistribution where
  categoryID : String
  categoryLabel : String
  time : ℚ
  percentage : ℚ
deriving Repr, DecidableEq

/-- Distribution entry built in the second loop of
CalculateCategoryDistribution for a task category not present in the
configuration pass (the category label comes from GetTaskCategory). -/
def taskEntry (e : Estimation) (config : Config) (pm : ℚ) (kv : TaskID × Task) :
    CategoryDistribution :=
  { categoryID := kv.2.category,
    categoryLabel := (config.GetTaskCategory kv.2.category).label,
    time := categoryWeightedMean e kv.2.category,
    percentage := if 0 < pm then categoryWeightedMean e kv.2.category / pm * 100 else 0 }

/-- Body of the second loop of CalculateCategoryDistribution: add a
distribution entry for the category of the task unless it was already seen
(the seenCategories map is modelled as the list of already-seen identifiers). -/
def distStep (e : Estimation) (config : Config) (pm : ℚ)
    (acc : List CategoryDistribution × List String) (kv : TaskID × Task) :
    List CategoryDistribution × List String :=
  if kv.2.category ∈ acc.2 then acc
  else (acc.1 ++ [taskEntry e config pm kv], acc.2 ++ [kv.2.category])

/-- Distribution entry built for a configured category in the first loop of
CalculateCategoryDistribution. -/
def configEntry (e : Estimation) (pm : ℚ) (kv : String × TaskCategory) :
    CategoryDistribution :=
  { categoryID := kv.1, categoryLabel := kv.2.label,
    time := categoryWeightedMean e kv.1,
    percentage := if 0 < pm then categoryWeightedMean e kv.1 / pm * 100 else 0 }

/-- CalculateCategoryDistribution calculates the distribution of time across
categories (Go CalculateCategoryDistribution): nil when the project weighted
mean is 0, otherwise first every configured category, then every category
referenced by some task but absent from the configuration (deduplicated via
the seenCategories set). -/
def CalculateCategoryDistribution (e : Estimation) (config : Config) :
    List CategoryDistribution :=
  if projectWeightedMean e = 0 then []
  else
    let pm := projectWeightedMean e
    let first := config.taskCategories.map (configEntry e pm)
    let seen0 := config.taskCategories.map (fun kv => kv.1)
    (e.tasks.foldl (distStep e config pm) (first, seen0)).1

/-! Fold-to-sum lemmas for the accumulation loops. -/

lemma foldl_add_eq_sum (f : (TaskID × Task) → ℚ) :
    ∀ (l : List (TaskID × Task)) (init : ℚ),
      l.foldl (fun acc kv => acc + f kv) init = init + (l.map f).sum
  | [], init => by simp
  | kv :: rest, init => by
    simp only [List.foldl_cons, List.map_cons, List.sum_cons,
      foldl_add_eq_sum f rest (init + f kv)]
    ring

lemma foldl_ite_add_eq_sum (f : (TaskID × Task) → ℚ) (P : (TaskID × Task) → Prop)
    [DecidablePred P] :
    ∀ (l : List (TaskID × Task)) (init : ℚ),
      l.foldl (fun acc kv => if P kv then acc + f kv else acc) init =
        init + ((l.filter (fun kv => P kv)).map f).sum
  | [], init => by simp
  | kv :: rest, init => by
    by_cases hP : P kv
    · rw [List.foldl_cons, if_pos hP, foldl_ite_add_eq_sum f P rest (init + f kv),
        List.filter_cons]
      simp [hP]
      ring
    · rw [List.foldl_cons, if_neg hP, foldl_ite_add_eq_sum f P rest init,
        List.filter_cons]
      simp [hP]

lemma projectWeightedMean_eq_sum (e : Estimation) :
    projectWeightedMean e = (e.tasks.map (fun kv => kv.2.WeightedMean)).sum := by
  rw [projectWeightedMean, foldl_add_eq_sum, zero_add]

lemma projectVariance_eq_sum (e : Estimation) :
    projectVariance e = (e.tasks.map (fun kv => kv.2.StandardDeviation ^ 2)).sum := by
  rw [projectVariance, foldl_add_eq_sum, zero_add]

lemma categoryWeightedMean_eq_sum (e : Estimation) (c : String) :
    categoryWeightedMean e c =
      ((e.tasks.filter (fun kv => kv.2.category = c)).map
        (fun kv => kv.2.WeightedMean)).sum := by
  rw [categoryWeightedMean, foldl_ite_add_eq_sum, zero_add]

/-- C5: for every Estimation, the project-level result equals
WeightedMean = the sum over all tasks of (O + 4L + P)/6 and
StandardDeviation = the square root of the sum over all tasks of
((P - O)/6)^2, exactly, in real arithmetic. -/
theorem projectEstimation_formulas (e : Estimation) :
    (CalculateProjectEstimation e).weightedMean =
      (((e.tasks.map (fun kv => (kv.2.estimations.optimistic +
        4 * kv.2.estimations.likely + kv.2.estimations.pessimistic) / 6)).sum : ℚ) : ℝ) ∧
    (CalculateProjectEstimation e).standardDeviation =
      Real.sqrt (((e.tasks.map (fun kv => ((kv.2.estimations.pessimistic -
        kv.2.estimations.optimistic) / 6) ^ 2)).sum : ℚ) : ℝ) := by
  constructor
  · simp only [CalculateProjectEstimation, projectWeightedMean_eq_sum, Task.WeightedMean]
  · simp only [CalculateProjectEstimation, projectVariance_eq_sum, Task.StandardDeviation]

/-- C9: whenever the project weighted mean is exactly 0,
CalculateCategoryDistribution returns the empty distribution (the Go code
returns nil before any division can occur). -/
theorem categoryDistribution_empty_of_zero_mean (e : Estimation) (config : Config)
    (h : projectWeightedMean e = 0) :
    CalculateCategoryDistribution e config = [] := by
  simp [CalculateCategoryDistribution, h]

/-- A sample configuration used to instantiate theorems at concrete inputs. -/
def config0 : Config :=
  { taskCategories :=
      [("development", { id := "development", label := "Development", costPerTimeUnit := 500 })],
    currency := "EUR", roundUpEstimations := true, autoEstimationMultiplier := 33/100 }

/-- Witness for C9: the empty estimation has project weighted mean 0 and an
empty category distribution. -/
theorem categoryDistribution_empty_of_zero_mean_witness :
    CalculateCategoryDistribution estimation0 config0 = [] :=
  categoryDistribution_empty_of_zero_mean estimation0 config0 rfl

/-! Partition argument for C6: every task is counted in exactly one category
entry of the distribution, so the category means sum to the project mean. -/

lemma sum_map_ite_single (a : String) (x : ℚ) :
    ∀ (cats : List String), cats.Nodup → a ∈ cats →
      (cats.map (fun c => if a = c then x else 0)).sum = x
  | [], _, hmem => absurd hmem (List.not_mem_nil a)
  | c :: cs, hnd, hmem => by
    by_cases hac : a = c
    · have hcnotin : c ∉ cs := (List.nodup_cons.mp hnd).1
      have hzero : (cs.map (fun b => if a = b then x else 0)).sum = 0 := by
        rw [List.map_congr_left (fun b hb =>
          if_neg (fun hab : a = b => hcnotin (by rw [← hac, hab]; exact hb)))]
        simp
      rw [List.map_cons, List.sum_cons, if_pos hac, hzero, add_zero]
    · have hmem' : a ∈ cs := by
        rcases List.mem_cons.mp hmem with h1 | h2
        · exact absurd h1 hac
        · exact h2
      simp only [List.map_cons, List.sum_cons, if_neg hac, zero_add]
      exact sum_map_ite_single a x cs (List.nodup_cons.mp hnd).2 hmem'

lemma sum_filter_partition :
    ∀ (ts : List (TaskID × Task)) (cats : List String), cats.Nodup →
      (∀ kv ∈ ts, kv.2.category ∈ cats) →
      (cats.map (fun c => ((ts.filter (fun kv => kv.2.category = c)).map
        (fun kv => kv.2.WeightedMean)).sum)).sum
        = (ts.map (fun kv => kv.2.WeightedMean)).sum
  | [], cats, _, _ => by simp
  | kv :: ts, cats, hnd, hcov => by
    have hsplit : ∀ c ∈ cats,
        (((kv :: ts).filter (fun x => x.2.category = c)).map
          (fun x => x.2.WeightedMean)).sum =
        (if kv.2.category = c then kv.2.WeightedMean else 0) +
          ((ts.filter (fun x => x.2.category = c)).map (fun x => x.2.WeightedMean)).sum := by
      intro c _
      rw [List.filter_cons]
      by_cases hc : kv.2.category = c
      · simp [hc]
      · simp [hc]
    rw [List.map_congr_left hsplit, List.sum_map_add,
      sum_map_ite_single kv.2.category kv.2.WeightedMean cats hnd
        (hcov kv (List.mem_cons_self kv ts)),
      sum_filter_partition ts cats hnd (fun x hx => hcov x (List.mem_cons_of_mem kv hx))]
    simp

lemma sum_map_div_mul (pm : ℚ) (f : String → ℚ) :
    ∀ (l : List String),
      (l.map (fun c => f c / pm * 100)).sum = (l.map f).sum / pm * 100
  | [] => by simp
  | c :: cs => by
    simp only [List.map_cons, List.sum_cons, sum_map_div_mul pm f cs]
    ring

/-- Invariants of the second loop of CalculateCategoryDistribution: the seen
list is exactly the list of emitted category identifiers, stays duplicate
free, every entry carries the category weighted mean and the corresponding
percentage, previously seen identifiers stay seen, and every processed task
has its category seen. -/
lemma distStep_fold_spec (e : Estimation) (config : Config) (pm : ℚ) :
    ∀ (ts : List (TaskID × Task)) (ds : List CategoryDistribution) (seen : List String),
    seen = ds.map (fun d => d.categoryID) → seen.Nodup →
    (∀ d ∈ ds, d.time = categoryWeightedMean e d.categoryID ∧
      d.percentage = (if 0 < pm then categoryWeightedMean e d.categoryID / pm * 100 else 0)) →
    ((ts.foldl (distStep e config pm) (ds, seen)).2 =
      (ts.foldl (distStep e config pm) (ds, seen)).1.map (fun d => d.categoryID)) ∧
    (ts.foldl (distStep e config pm) (ds, seen)).2.Nodup ∧
    (∀ d ∈ (ts.foldl (distStep e config pm) (ds, seen)).1,
      d.time = categoryWeightedMean e d.categoryID ∧
      d.percentage = (if 0 < pm then categoryWeightedMean e d.categoryID / pm * 100 else 0)) ∧
    (∀ x ∈ seen, x ∈ (ts.foldl (distStep e config pm) (ds, seen)).2) ∧
    (∀ kv ∈ ts, kv.2.category ∈ (ts.foldl (distStep e config pm) (ds, seen)).2)
  | [], ds, seen, h1, h2, h3 => by
    refine ⟨h1, h2, h3, fun x hx => hx, ?_⟩
    intro kv hkv
    exact absurd hkv (List.not_mem_nil kv)
  | kv :: ts, ds, seen, h1, h2, h3 => by
    rw [List.foldl_cons]
    by_cases hkv : kv.2.category ∈ seen
    · have hstep : distStep e config pm (ds, seen) kv = (ds, seen) := by
        simp [distStep, hkv]
      rw [hstep]
      obtain ⟨g1, g2, g3, g4, g5⟩ := distStep_fold_spec e config pm ts ds seen h1 h2 h3
      refine ⟨g1, g2, g3, g4, ?_⟩
      intro x hx
      rcases List.mem_cons.mp hx with hh | ht
      · rw [hh]
        exact g4 kv.2.category hkv
      · exact g5 x ht
    · have hstep : distStep e config pm (ds, seen) kv =
          (ds ++ [taskEntry e config pm kv], seen ++ [kv.2.category]) := by
        simp [distStep, hkv]
      rw [hstep]
      have h1' : seen ++ [kv.2.category] =
          (ds ++ [taskEntry e config pm kv]).map (fun d => d.categoryID) := by
        rw [List.map_append, ← h1]
        rfl
      have h2' : (seen ++ [kv.2.category]).Nodup := by
        simp [List.nodup_append, h2, hkv]
      have h3' : ∀ d ∈ ds ++ [taskEntry e config pm kv],
          d.time = categoryWeightedMean e d.categoryID ∧
          d.percentage = (if 0 < pm then
            categoryWeightedMean e d.categoryID / pm * 100 else 0) := by
        intro d hd
        rcases List.mem_append.mp hd with hold | hnew
        · exact h3 d hold
        · rw [List.mem_singleton.mp hnew]
          exact ⟨rfl, rfl⟩
      obtain ⟨g1, g2, g3, g4, g5⟩ := distStep_fold_spec e config pm ts _ _ h1' h2' h3'
      refine ⟨g1, g2, g3, ?_, ?_⟩
      · intro x hx
        exact g4 x (List.mem_append.mpr (Or.inl hx))
      · intro x hx
        rcases List.mem_cons.mp hx with hh | ht
        · rw [hh]
          exact g4 kv.2.category (List.mem_append.mpr (Or.inr (List.mem_singleton_self _)))
        · exact g5 x ht

/-- C6: whenever the project weighted mean is strictly positive (and the
configured category identifiers are pairwise distinct, as Go map keys are),
the Percentage fields of all entries of CalculateCategoryDistribution sum to
exactly 100. -/
theorem categoryDistribution_percentages_sum_100 (e : Estimation) (config : Config)
    (hpm : 0 < projectWeightedMean e)
    (hnd : (config.taskCategories.map (fun kv => kv.1)).Nodup) :
    ((CalculateCategoryDistribution e config).map (fun d => d.percentage)).sum = 100 := by
  have hne : projectWeightedMean e ≠ 0 := ne_of_gt hpm
  have hdist : CalculateCategoryDistribution e config =
      (e.tasks.foldl (distStep e config (projectWeightedMean e))
        (config.taskCategories.map (configEntry e (projectWeightedMean e)),
         config.taskCategories.map (fun kv => kv.1))).1 := by
    simp only [CalculateCategoryDistribution, if_neg hne]
  have h1 : config.taskCategories.map (fun kv => kv.1) =
      (config.taskCategories.map (configEntry e (projectWeightedMean e))).map
        (fun d => d.categoryID) := by
    rw [List.map_map]
    rfl
  have h3 : ∀ d ∈ config.taskCategories.map (configEntry e (projectWeightedMean e)),
      d.time = categoryWeightedMean e d.categoryID ∧
      d.percentage = (if 0 < projectWeightedMean e then
        categoryWeightedMean e d.categoryID / projectWeightedMean e * 100 else 0) := by
    intro d hd
    obtain ⟨kv, _, hkv⟩ := List.mem_map.mp hd
    rw [← hkv]
    exact ⟨rfl, rfl⟩
  obtain ⟨g1, g2, g3, _, g5⟩ := distStep_fold_spec e config (projectWeightedMean e)
    e.tasks (config.taskCategories.map (configEntry e (projectWeightedMean e)))
    (config.taskCategories.map (fun kv => kv.1)) h1 hnd h3
  rw [hdist]
  rw [List.map_congr_left (fun d hd => (g3 d hd).2)]
  rw [show (fun d : CategoryDistribution => if 0 < projectWeightedMean e then
      categoryWeightedMean e d.categoryID / projectWeightedMean e * 100 else 0) =
    (fun d : CategoryDistribution =>
      categoryWeightedMean e d.categoryID / projectWeightedMean e * 100) from
    funext (fun d => if_pos hpm)]
  have hmm : ((e.tasks.foldl (distStep e config (projectWeightedMean e))
        (config.taskCategories.map (configEntry e (projectWeightedMean e)),
         config.taskCategories.map (fun kv => kv.1))).1.map
      (fun d => categoryWeightedMean e d.categoryID / projectWeightedMean e * 100)) =
      (((e.tasks.foldl (distStep e config (projectWeightedMean e))
        (config.taskCategories.map (configEntry e (projectWeightedMean e)),
         config.taskCategories.map (fun kv => kv.1))).1.map
      (fun d => d.categoryID)).map
      (fun c => categoryWeightedMean e c / projectWeightedMean e * 100)) := by
    rw [List.map_map]
    rfl
  rw [hmm, sum_map_div_mul]
  have hcats : (((e.tasks.foldl (distStep e config (projectWeightedMean e))
        (config.taskCategories.map (configEntry e (projectWeightedMean e)),
         config.taskCategories.map (fun kv => kv.1))).1.map
      (fun d => d.categoryID)).map (fun c => categoryWeightedMean e c)).sum =
      projectWeightedMean e := by
    rw [List.map_congr_left (fun c _ => categoryWeightedMean_eq_sum e c),
      sum_filter_partition e.tasks _ (g1 ▸ g2) (fun kv hkv => g1 ▸ g5 kv hkv),
      ← projectWeightedMean_eq_sum]
  rw [hcats, div_self hne, one_mul]

/-- A one-task estimation with a strictly positive project weighted mean, for
the C6 witness. -/
def estimation1 : Estimation :=
  { id := "e4", label := "One task", description := "", createdAt := 0, updatedAt := 0,
    ordering := ["a"], tasks := [("a", taskA)] }

/-- Witness for C6: the theorem applied to the one-task estimation (project
weighted mean 4 > 0) and the sample configuration. -/
theorem categoryDistribution_percentages_sum_100_witness :
    ((CalculateCategoryDistribution estimation1 config0).map
      (fun d => d.percentage)).sum = 100 :=
  categoryDistribution_percentages_sum_100 estimation1 config0
    (by norm_num [projectWeightedMean, estimation1, taskA, Task.WeightedMean])
    (by simp [config0])

end Guesstimate
